import Mathlib

/-
  Verification development for the TVstreamCZ Kodi add-on.

  Shallow embedding of the add-on's core pipeline:
    * `parser.py`    — filename classifier and `MediaItem` builder,
    * `catalogue.py` — the fetch/filter/paginate engine (`WebshareCatalogue`),
    * `metadata.py`  — candidate scoring, selection and the enrichment cache.

  Conventions of the embedding:
    * Python dicts become insertion-ordered association lists (`MDict`),
      with `dget`/`dset`/`dupdate`/`dsetdefault` mirroring `d[k]`,
      `d.update(..)` and `d.setdefault(..)`.
    * Python `None` becomes `Option.none`; truthiness of strings/dicts is
      modelled explicitly at each use site (empty string / empty dict are
      falsy, as in Python).
    * Machine integers are `Int`/`Nat` (Python ints are unbounded, so no
      wrap-around modelling is needed).
    * Character-level operations follow Python string semantics on the
      ASCII range; the classifier's regular expressions are specialised
      into explicit character-scanning functions, one per pattern.
-/

namespace TVstreamCZ

/-! ### Python-style string-keyed dictionaries -/

/-- Values stored in a metadata dictionary (strings, ints, string lists,
and Python `None`).  Floats do not occur in any claim-relevant path. -/
inductive MVal where
  | s (v : String)
  | n (v : Int)
  | ns (v : List String)
  | null
deriving DecidableEq, Repr

/-- A Python dict with string keys, as an insertion-ordered association list. -/
abbrev MDict := List (String × MVal)

/-- Dictionary lookup, `d.get(k)`: first binding of `k` wins (bindings are
unique for dicts built by the embedded operations). -/
def dget (d : MDict) (k : String) : Option MVal :=
  match d with
  | [] => none
  | p :: t => if p.1 = k then some p.2 else dget t k

/-- Dictionary assignment `d[k] = v`: replace the (first, hence unique)
binding of `k` in place if present, else append a new binding.  On
unique-key dicts this is exactly Python's in-place key assignment. -/
def dset (d : MDict) (k : String) (v : MVal) : MDict :=
  match d with
  | [] => [(k, v)]
  | p :: t => if p.1 = k then (k, v) :: t else p :: dset t k v

/-- Python `d.update(data)`: assign every binding of `data`, in order. -/
def dupdate (d : MDict) (data : MDict) : MDict :=
  data.foldl (fun acc p => dset acc p.1 p.2) d

/-- Python `d.setdefault(k, v)`: insert `(k, v)` only when `k` is absent. -/
def dsetdefault (d : MDict) (k : String) (v : MVal) : MDict :=
  if (dget d k).isSome then d else d ++ [(k, v)]

/-- The last binding of `k` in `data` (the one `dict.update` leaves in
force when `data` is fed in as a binding list). -/
def lookupLast (data : MDict) (k : String) : Option MVal :=
  data.foldl (fun acc p => if p.1 = k then some p.2 else acc) none

/-! ### MediaItem (parser.py, `@dataclass MediaItem`) -/

/-- Normalized representation of a Webshare media entry
(`parser.py:MediaItem`).  Field order and defaults mirror the dataclass. -/
structure MediaItem where
  ident : String
  original_name : String
  extension : Option String
  size : Option Int
  preview_image : Option String
  preview_strip : Option String
  preview_count : Option Int
  votes_positive : Option Int
  votes_negative : Option Int
  password_protected : Bool
  media_type : String
  cleaned_title : String
  sort_title : String
  guessed_year : Option Int := none
  season : Option Int := none
  episode : Option Int := none
  quality : Option String := none
  quality_score : Int := 0
  audio_languages : List String := []
  subtitle_languages : List String := []
  metadata : MDict := []
deriving DecidableEq, Repr

/-- The value `setdefault("year", self.guessed_year)` inserts: the guessed
year, or Python `None` when no year was guessed. -/
def yearDefault (y : Option Int) : MVal :=
  match y with
  | some v => MVal.n v
  | none => MVal.null

/-- `MediaItem.apply_metadata` (parser.py lines 59-65): merge fetched
metadata into the item.  `if not data: return` (empty dict is falsy), then
`self.metadata.update(data)` followed by
`setdefault("title", cleaned_title)` and `setdefault("year", guessed_year)`. -/
def apply_metadata (item : MediaItem) (data : MDict) : MediaItem :=
  if data.isEmpty then item
  else
    let m := dupdate item.metadata data
    let m := dsetdefault m "title" (MVal.s item.cleaned_title)
    let m := dsetdefault m "year" (yearDefault item.guessed_year)
    { item with metadata := m }

/-! ### Character helpers (Python string semantics, ASCII scope)

The classifier's regular expressions are specialised into explicit
character-scanning functions.  Word characters and case folding follow
Python on the ASCII range; the handful of accented letters appearing in
the source patterns (é í á č) are folded explicitly.  Non-ASCII characters
are conservatively treated as word characters. -/

/-- Python whitespace class (ASCII part). -/
def isPySpace (c : Char) : Bool :=
  c = ' ' || c = '\t' || c = '\n' || c = '\r' || c = '\x0b' || c = '\x0c'

/-- A regex word character for word boundaries. -/
def isWordChar (c : Char) : Bool :=
  c.isAlphanum || c = '_' || c.val ≥ 128

/-- Case folding used by the case-insensitive patterns. -/
def lowerA (c : Char) : Char :=
  if c.isUpper then c.toLower
  else if c = 'É' then 'é'
  else if c = 'Í' then 'í'
  else if c = 'Á' then 'á'
  else if c = 'Č' then 'č'
  else c

/-- A word boundary holds before the current position. -/
def boundaryOk (prev : Option Char) : Bool :=
  match prev with
  | none => true
  | some c => !(isWordChar c)

/-- A word boundary holds at the start of the given suffix. -/
def boundaryAt (s : List Char) : Bool :=
  match s with
  | [] => true
  | c :: _ => !(isWordChar c)

/-- Length of the leading run of decimal digits. -/
def digitRun (s : List Char) : Nat := (s.takeWhile Char.isDigit).length

/-- Decimal value of the first `n` characters (assumed digits). -/
def digitVal (s : List Char) (n : Nat) : Nat :=
  (s.take n).foldl (fun acc c => acc * 10 + (c.toNat - 48)) 0

/-- Case-insensitively match the literal `w` (given lowercase) at the head
of `s`; return the number of characters consumed. -/
def litCIAt (w : List Char) (s : List Char) : Option Nat :=
  match w, s with
  | [], _ => some 0
  | _ :: _, [] => none
  | a :: ws, c :: cs => if lowerA c = a then (litCIAt ws cs).map (· + 1) else none

/-- Leftmost-match scan: try the position matcher `m` at every position
from left to right; `m` receives the previous character (for boundary
tests) and the remaining suffix. -/
def scanFirst (m : Option Char → List Char → Option α) :
    Option Char → List Char → Option α
  | prev, [] => m prev []
  | prev, c :: cs =>
    match m prev (c :: cs) with
    | some r => some r
    | none => scanFirst m (some c) cs

/-- Existence variant of `scanFirst` for boolean position matchers. -/
def scanAnyB (m : Option Char → List Char → Bool) :
    Option Char → List Char → Bool
  | prev, [] => m prev []
  | prev, c :: cs => m prev (c :: cs) || scanAnyB m (some c) cs

/-- `re.sub(pattern, " ", s)`: replace every non-overlapping leftmost match
by a single space.  The position matcher returns the number of characters
consumed (all source patterns consume at least one character). -/
def subAllAux (m : Option Char → List Char → Option Nat) :
    Nat → Option Char → List Char → List Char
  | 0, _, s => s
  | fuel + 1, prev, s =>
    match s with
    | [] => []
    | c :: cs =>
      match m prev s with
      | some n =>
        if n = 0 then c :: subAllAux m fuel (some c) cs
        else ' ' :: subAllAux m fuel (s.take n).getLast? (s.drop n)
      | none => c :: subAllAux m fuel (some c) cs

def subAll (m : Option Char → List Char → Option Nat) (s : List Char) : List Char :=
  subAllAux m s.length none s

/-- Split into maximal runs of characters not satisfying `p`. -/
def splitRuns (p : Char → Bool) : List Char → List Char → List (List Char)
  | [], acc => if acc.isEmpty then [] else [acc.reverse]
  | c :: cs, acc =>
    if p c then (if acc.isEmpty then [] else [acc.reverse]) ++ splitRuns p cs []
    else splitRuns p cs (c :: acc)

/-- Python `str.strip()` (ASCII whitespace). -/
def pyStrip (s : String) : String :=
  String.mk (((s.toList.dropWhile isPySpace).reverse.dropWhile isPySpace).reverse)

/-- Truthiness helper: `x or None` for an optional string field. -/
def truthyStr (o : Option String) : Option String :=
  match o with
  | some "" => none
  | some s => some s
  | none => none

/-- `int(s) if s else None` for an optional string field (a parse failure
raises in Python; it is out of claim scope and modelled as `none`). -/
def pyIntOpt (o : Option String) : Option Int :=
  match truthyStr o with
  | some s => s.toInt?
  | none => none

/-! ### Tokenizer and feature detectors (parser.py) -/

/-- The separator class of `_TOKEN_SPLIT`. -/
def isSplitChar (c : Char) : Bool :=
  isPySpace c || c = '.' || c = '_' || c = '-' || c = '[' || c = ']' ||
    c = '(' || c = ')' || c = Char.ofNat 123 || c = Char.ofNat 125

/-- `tokenize`: split on `_TOKEN_SPLIT`, keeping non-empty tokens. -/
def tokenize (name : String) : List String :=
  (splitRuns isSplitChar name.toList []).map (fun l => String.mk l)

/-- Position matcher for `_SEASON_EPISODE_RE`,
matching season and episode digit groups after an `S`/`E` marker with
optional separators.  Returns `(consumed, season, episode)`.
Greedy digit matching is exact here: a digit can neither start the
separator run nor the `E` marker, so the regex engine never backtracks. -/
def seAt (s : List Char) : Option (Nat × Nat × Nat) :=
  match s with
  | [] => none
  | c :: cs =>
    if c = 'S' || c = 's' then
      let d1 := min 2 (digitRun cs)
      if d1 = 0 then none
      else
        let rest1 := cs.drop d1
        let seps := (rest1.takeWhile (fun x => isPySpace x || x = '.' || x = '_' || x = '-')).length
        let rest2 := rest1.drop seps
        match rest2 with
        | [] => none
        | e :: es =>
          if e = 'E' || e = 'e' then
            let d2 := min 2 (digitRun es)
            if d2 = 0 then none
            else some (1 + d1 + seps + 1 + d2, digitVal cs d1, digitVal es d2)
          else none
    else none

/-- Position matcher for `_ALT_SEASON_EPISODE_RE`, the
digits-x-digits form with word boundaries (the `x` is lowercase only:
that pattern is compiled without `IGNORECASE`). -/
def altSeAt (prev : Option Char) (s : List Char) : Option (Nat × Nat × Nat) :=
  if boundaryOk prev then
    let r1 := min 2 (digitRun s)
    if r1 = 0 then none
    else
      match s.drop r1 with
      | 'x' :: cs =>
        if digitRun cs ≥ 2 && boundaryAt (cs.drop 2) then
          some (r1 + 3, digitVal s r1, digitVal cs 2)
        else none
      | _ => none
  else none

/-- `detect_season_episode`: first the `S..E..` pattern, else the
`..x..` pattern, else not found. -/
def detect_season_episode (name : String) : Option Int × Option Int :=
  match scanFirst (fun _ s => seAt s) none name.toList with
  | some r => (some (r.2.1 : Int), some (r.2.2 : Int))
  | none =>
    match scanFirst altSeAt none name.toList with
    | some r => (some (r.2.1 : Int), some (r.2.2 : Int))
    | none => (none, none)

/-- Position matcher for `_YEAR_RE`: a word-bounded
4-digit token starting `19` or `20`. -/
def yearAt (prev : Option Char) (s : List Char) : Option (Nat × Nat) :=
  if boundaryOk prev then
    match s with
    | a :: b :: c :: d :: rest =>
      if ((a = '1' && b = '9') || (a = '2' && b = '0')) &&
          c.isDigit && d.isDigit && boundaryAt rest then
        some (4, digitVal (a :: b :: c :: d :: rest) 4)
      else none
    | _ => none
  else none

/-- `detect_year`: value of the first year match, else absent. -/
def detect_year (name : String) : Option Int :=
  (scanFirst yearAt none name.toList).map (fun r => (r.2 : Int))

/-- Substring containment of a character list. -/
def seqContains (w : List Char) : List Char → Bool
  | [] => w.isEmpty
  | c :: cs => w.isPrefixOf (c :: cs) || seqContains w cs

/-- Case-insensitive substring containment (`pattern.search` for a plain
literal alternative); `w` is given lowercase, `l` is a pre-lowered list. -/
def containsSeq (w : String) (l : List Char) : Bool :=
  seqContains w.toList l

/-- The `dolby\s*vision` alternative of the UHD tier. -/
def hasDolbyVision : List Char → Bool
  | [] => false
  | c :: cs =>
    (("dolby".toList.isPrefixOf (c :: cs)) &&
        ("vision".toList.isPrefixOf (((c :: cs).drop 5).dropWhile isPySpace))) ||
      hasDolbyVision cs

def uhdMatch (l : List Char) : Bool :=
  containsSeq "2160p" l || containsSeq "4k" l || containsSeq "uhd" l ||
    hasDolbyVision l || containsSeq "hdr" l

def hdMatch (l : List Char) : Bool :=
  containsSeq "1080p" l || containsSeq "720p" l || containsSeq "hd" l ||
    containsSeq "webrip" l || containsSeq "bluray" l || containsSeq "bdrip" l ||
    containsSeq "brrip" l

def sdMatch (l : List Char) : Bool :=
  containsSeq "576p" l || containsSeq "480p" l || containsSeq "dvdrip" l ||
    containsSeq "dvd" l || containsSeq "tvrip" l || containsSeq "xvid" l ||
    containsSeq "hdtv" l || containsSeq "cam" l || containsSeq "workprint" l ||
    containsSeq "ts" l

/-- `detect_quality`: the `_QUALITY_PATTERNS` tiers in priority order;
the first tier with a match anywhere in the name wins. -/
def detect_quality (name : String) : Option String × Int :=
  let l := name.toList.map lowerA
  if uhdMatch l then (some "uhd", 3)
  else if hdMatch l then (some "hd", 2)
  else if sdMatch l then (some "sd", 1)
  else (none, 0)

/-- One word-bounded alternative of a language pattern: a literal, or a
pair of literals separated by optional whitespace. -/
def wordAltAt (alt : String × Option String) (prev : Option Char) (s : List Char) : Bool :=
  boundaryOk prev &&
    (match litCIAt alt.1.toList s with
     | none => false
     | some n =>
       match alt.2 with
       | none => boundaryAt (s.drop n)
       | some b =>
         let rest := (s.drop n).dropWhile isPySpace
         match litCIAt b.toList rest with
         | none => false
         | some m => boundaryAt (rest.drop m))

/-- `pattern.search` for a word-bounded alternation (audio languages). -/
def wordPatFound (alts : List (String × Option String)) (s : List Char) : Bool :=
  alts.any (fun alt => scanAnyB (wordAltAt alt) none s)

/-- One alternative of a subtitle pattern (no word boundaries). -/
def plainAltAt (alt : String × Option String) (s : List Char) : Bool :=
  match litCIAt alt.1.toList s with
  | none => false
  | some n =>
    match alt.2 with
    | none => true
    | some b =>
      (litCIAt b.toList ((s.drop n).dropWhile isPySpace)).isSome

/-- `pattern.search` for an unbounded alternation (subtitle languages). -/
def plainPatFound (alts : List (String × Option String)) (s : List Char) : Bool :=
  alts.any (fun alt => scanAnyB (fun _ t => plainAltAt alt t) none s)

/-- `_LANGUAGE_MAP` in dict insertion order. -/
def audioSearches : List (String × (List Char → Bool)) :=
  [("cz", wordPatFound
      [("cz", none), ("ces", none), ("cze", none), ("czech", none),
       ("czdab", none), ("czdub", none), ("czaudio", none), ("czsound", none),
       ("cz", some "dabing"), ("cz", some "dub")]),
   ("sk", wordPatFound
      [("sk", none), ("slk", none), ("slovak", none), ("skdab", none),
       ("skdub", none), ("sk", some "dabing"), ("sk", some "dub")]),
   ("en", wordPatFound
      [("en", none), ("eng", none), ("english", none), ("en", some "audio")])]

/-- `_SUBTITLE_MAP` in dict insertion order. -/
def subtitleSearches : List (String × (List Char → Bool)) :=
  [("cz", plainPatFound
      [("cz", some "tit"), ("tit", some "cz"), ("cz", some "subs"),
       ("czsub", none), ("cztitl", none), ("cztitulky", none)]),
   ("sk", plainPatFound
      [("sk", some "tit"), ("tit", some "sk"), ("sk", some "subs"),
       ("sktit", none), ("sktitulky", none)]),
   ("en", plainPatFound
      [("en", some "tit"), ("tit", some "en"), ("en", some "subs"),
       ("engsub", none), ("eng", some "subs"), ("english", some "subs")])]

/-- `detect_languages`: search the joined token string first, then
token-by-token; a language is reported at most once, in map order. -/
def detect_languages (tokens : List String) (combined : String)
    (pats : List (String × (List Char → Bool))) : List String :=
  pats.foldl
    (fun found p =>
      if p.2 combined.toList then found ++ [p.1]
      else if tokens.any (fun t => p.2 t.toList) then found ++ [p.1]
      else found)
    []

/-! ### Classifier (parser.py `classify_media_type`) -/

/-- Spaces-then-digits tail shared by several TV patterns
(`\s*\d+` after a marker). -/
def spacesThenDigits (s : List Char) : Bool :=
  digitRun (s.dropWhile isPySpace) ≥ 1

/-- TV pattern `[Ss]\d{1,2}[Ee]\d{1,2}` (no separators; subsumed by
`_SEASON_EPISODE_RE`, kept for fidelity). -/
def tvSeTightAt (s : List Char) : Bool :=
  match s with
  | c :: cs =>
    (c = 'S' || c = 's') &&
      (let d1 := min 2 (digitRun cs)
       d1 ≠ 0 &&
         (match cs.drop d1 with
          | e :: es => (e = 'E' || e = 'e') && digitRun es ≥ 1
          | [] => false))
  | [] => false

/-- TV pattern `\d+x\d+` (case-insensitive, so `x` or `X`; no boundaries). -/
def tvDigitsXAt (s : List Char) : Bool :=
  let r := digitRun s
  r ≥ 1 &&
    (match s.drop r with
     | c :: cs => (c = 'x' || c = 'X') && digitRun cs ≥ 1
     | [] => false)

/-- TV pattern for a localized season word:
`S`/`s`, `é`, `r`, `i`/`í`, optional `e`, whitespace, digits
(case-insensitive). -/
def tvSerieAt (s : List Char) : Bool :=
  match s with
  | c1 :: c2 :: c3 :: c4 :: rest =>
    (lowerA c1 = 's') && (lowerA c2 = 'é') && (lowerA c3 = 'r') &&
      (lowerA c4 = 'i' || lowerA c4 = 'í') &&
      (match rest with
       | e :: es => if lowerA e = 'e' then spacesThenDigits es else spacesThenDigits rest
       | [] => false)
  | _ => false

/-- TV pattern `[Ss]eason\s*\d+` (case-insensitive). -/
def tvSeasonAt (s : List Char) : Bool :=
  match litCIAt "season".toList s with
  | some n => spacesThenDigits (s.drop n)
  | none => false

/-- TV pattern `[Ee]p\.?\s*\d+` (case-insensitive, optional dot). -/
def tvEpAt (s : List Char) : Bool :=
  match litCIAt "ep".toList s with
  | some n =>
    (match s.drop n with
     | '.' :: rest => spacesThenDigits rest
     | rest => spacesThenDigits rest)
  | none => false

/-- TV pattern `[Ee]pisode\s*\d+` (case-insensitive). -/
def tvEpisodeAt (s : List Char) : Bool :=
  match litCIAt "episode".toList s with
  | some n => spacesThenDigits (s.drop n)
  | none => false

/-- A standalone word-bounded marker letter followed by one or two digits:
`\b[Ss]\d{1,2}\b` / `\b[Ee]\d{1,2}\b`.  The trailing-boundary test after
`min 2 run` digits is exact: with a run of three or more digits both the
two-digit and the backtracked one-digit alternative end on a digit. -/
def tvMarkerDigitsAt (marker : Char) (prev : Option Char) (s : List Char) : Bool :=
  boundaryOk prev &&
    (match s with
     | c :: cs =>
       lowerA c = marker &&
         (let r := digitRun cs
          r ≥ 1 && boundaryAt (cs.drop (min 2 r)))
     | [] => false)

/-- TV pattern `díl\s*\d+` (case-insensitive, no boundary). -/
def tvDilAt (s : List Char) : Bool :=
  match s with
  | c1 :: c2 :: c3 :: rest =>
    lowerA c1 = 'd' && lowerA c2 = 'í' && lowerA c3 = 'l' && spacesThenDigits rest
  | _ => false

/-- TV pattern `část\s*\d+` (case-insensitive, no boundary). -/
def tvCastAt (s : List Char) : Bool :=
  match s with
  | c1 :: c2 :: c3 :: c4 :: rest =>
    lowerA c1 = 'č' && lowerA c2 = 'á' && lowerA c3 = 's' && lowerA c4 = 't' &&
      spacesThenDigits rest
  | _ => false

/-- The `tv_patterns` list of `classify_media_type`, searched in order. -/
def tvPatternsFound (l : List Char) : Bool :=
  scanAnyB (fun _ s => tvSeTightAt s) none l ||
  scanAnyB (fun _ s => tvDigitsXAt s) none l ||
  scanAnyB (fun _ s => tvSerieAt s) none l ||
  scanAnyB (fun _ s => tvSeasonAt s) none l ||
  scanAnyB (fun _ s => tvEpAt s) none l ||
  scanAnyB (fun _ s => tvEpisodeAt s) none l ||
  scanAnyB (tvMarkerDigitsAt 's') none l ||
  scanAnyB (tvMarkerDigitsAt 'e') none l ||
  scanAnyB (fun _ s => tvDilAt s) none l ||
  scanAnyB (fun _ s => tvCastAt s) none l

/-- An optional single separator from `[\s_-]?`. -/
def dropOptSep (s : List Char) : List Char :=
  match s with
  | c :: cs => if isPySpace c || c = '_' || c = '-' then cs else s
  | [] => []

/-- A multi-word alternative with optional separators between the words
(`making[\s_-]?of` and friends), matched at a position, case-insensitively. -/
def seqWordsAt (ws : List String) (s : List Char) : Bool :=
  match ws with
  | [] => true
  | [w] => (litCIAt w.toList s).isSome
  | w :: rest =>
    match litCIAt w.toList s with
    | some n => seqWordsAt rest (dropOptSep (s.drop n))
    | none => false

/-- The non-content blocklist of
`classify_media_type` (trailers, samples, …): an unbounded
case-insensitive alternation, so plain substring search suffices for the
single-word alternatives. -/
def blk1Found (l : List Char) : Bool :=
  let low := l.map lowerA
  containsSeq "trailer" low || containsSeq "teaser" low || containsSeq "sample" low ||
  containsSeq "preview" low || containsSeq "promo" low ||
  scanAnyB (fun _ s => seqWordsAt ["making", "of"] s) none l ||
  scanAnyB (fun _ s => seqWordsAt ["behind", "the", "scenes"] s) none l ||
  containsSeq "extra" low || containsSeq "bonus" low || containsSeq "featurette" low ||
  scanAnyB (fun _ s => seqWordsAt ["deleted", "scene"] s) none l ||
  containsSeq "outtake" low || containsSeq "interview" low ||
  containsSeq "soundtrack" low || containsSeq "ost" low ||
  scanAnyB (fun _ s => seqWordsAt ["music", "video"] s) none l ||
  containsSeq "documentary" low || containsSeq "doc" low ||
  containsSeq "featureset" low || containsSeq "commercial" low ||
  containsSeq "ad" low

/-- The short-clip blocklist: `\b(clip|short|segment|excerpt|fragment|demo|test|rip)\b`. -/
def blk2Found (l : List Char) : Bool :=
  wordPatFound
    [("clip", none), ("short", none), ("segment", none), ("excerpt", none),
     ("fragment", none), ("demo", none), ("test", none), ("rip", none)] l

/-- The sidecar-file blocklist:
`\b(readme|nfo|txt|sub|srt|idx|info|cover|artwork|poster)\b`. -/
def blk3Found (l : List Char) : Bool :=
  wordPatFound
    [("readme", none), ("nfo", none), ("txt", none), ("sub", none),
     ("srt", none), ("idx", none), ("info", none), ("cover", none),
     ("artwork", none), ("poster", none)] l

/-- A literal followed by at least one digit, anywhere (for
`part\d+|cd\d+|disc\d+`). -/
def litDigitsFound (w : String) (l : List Char) : Bool :=
  scanAnyB
    (fun _ s =>
      match litCIAt w.toList s with
      | some n => digitRun (s.drop n) ≥ 1
      | none => false)
    none l

/-- The partial-download blocklist `(part\d+|cd\d+|disc\d+|\bpt\d+)`. -/
def blk4Found (l : List Char) : Bool :=
  litDigitsFound "part" l || litDigitsFound "cd" l || litDigitsFound "disc" l ||
    scanAnyB
      (fun prev s =>
        boundaryOk prev &&
          (match litCIAt "pt".toList s with
           | some n => digitRun (s.drop n) ≥ 1
           | none => false))
      none l

/-- The accompanying `(movie|film)` test of the partial-download rule. -/
def movieFilmFound (l : List Char) : Bool :=
  let low := l.map lowerA
  containsSeq "movie" low || containsSeq "film" low

/-- `classify_media_type`: season/episode
detection, then the `tv_patterns` list, then the three blocklists, then
the partial-download rule, else `movie`. -/
def classify_media_type (name : String) : String :=
  let l := name.toList
  match detect_season_episode name with
  | (some _, _) => "tvshow"
  | (none, _) =>
    if tvPatternsFound l then "tvshow"
    else if blk1Found l then "other"
    else if blk2Found l then "other"
    else if blk3Found l then "other"
    else if blk4Found l && !(movieFilmFound l) then "other"
    else "movie"

/-! ### Title cleaning (parser.py `clean_title`, `make_sort_title`) -/

/-- The alternatives of `_REMOVE_TOKENS`, in source
order.  `dd51` stands for `dd5\.?1` and `ddD` for `dd\d`. -/
inductive RTok where
  | lit (w : String)
  | dd51
  | ddD

def rtokList : List RTok :=
  [.lit "720p", .lit "1080p", .lit "2160p", .lit "4k", .lit "uhd", .lit "hdr",
   .lit "webrip", .lit "web-dl", .lit "webdl", .lit "bluray", .lit "bdrip",
   .lit "brrip", .lit "x264", .lit "x265", .lit "h264", .lit "h265",
   .lit "hevc", .lit "dvdrip", .lit "dvdr", .lit "hdtv", .lit "aac",
   .lit "dts", .lit "truehd", .lit "atmos", .lit "remux", .lit "multi",
   .lit "cz", .lit "sk", .lit "eng", .lit "en", .dd51, .ddD,
   .lit "exclusive", .lit "proper", .lit "repack", .lit "nf",
   .lit "nfwebrip", .lit "ws", .lit "hmax", .lit "amzn", .lit "pal",
   .lit "ntsc"]

/-- Match one removal alternative at a position (case-insensitive). -/
def rtokAt1 : RTok → List Char → Option Nat
  | .lit w, s => litCIAt w.toList s
  | .dd51, s =>
    (match s with
     | d1 :: d2 :: d3 :: rest =>
       if lowerA d1 = 'd' && lowerA d2 = 'd' && d3 = '5' then
         match rest with
         | '.' :: '1' :: _ => some 5
         | '1' :: _ => some 4
         | _ => none
       else none
     | _ => none)
  | .ddD, s =>
    (match s with
     | d1 :: d2 :: d3 :: _ =>
       if lowerA d1 = 'd' && lowerA d2 = 'd' && d3.isDigit then some 3 else none
     | _ => none)

/-- Position matcher for `_REMOVE_TOKENS`: word boundary, then the first
alternative (in source order) that matches and is followed by a word
boundary. -/
def removeTokenAt (prev : Option Char) (s : List Char) : Option Nat :=
  if boundaryOk prev then
    rtokList.findSome?
      (fun t =>
        match rtokAt1 t s with
        | some n => if boundaryAt (s.drop n) then some n else none
        | none => none)
  else none

/-- Position matcher for the residual part marker `\b\d{1,2}of\d{1,2}\b`
(case-insensitive).  As with the other bounded digit groups, greedy
matching capped at the maximal run is exact. -/
def nofmAt (prev : Option Char) (s : List Char) : Option Nat :=
  if boundaryOk prev then
    let r1 := digitRun s
    if r1 = 0 || r1 > 2 then none
    else
      match litCIAt "of".toList (s.drop r1) with
      | some _ =>
        let rest2 := (s.drop r1).drop 2
        let r2 := digitRun rest2
        if r2 ≥ 1 && boundaryAt (rest2.drop (min 2 r2)) then
          some (r1 + 2 + min 2 r2)
        else none
      | none => none
  else none

/-- `re.sub(r"\s+", " ", work).strip()`. -/
def collapseSpaces (s : List Char) : List Char :=
  List.intercalate [' '] (splitRuns isPySpace s [])

/-- `clean_title`: separators to spaces, strip the
removal vocabulary, strip season/episode and year patterns and residual
`NofM` markers, collapse whitespace; fall back to the raw name when the
result is empty. -/
def clean_title (name : String) : String :=
  let work0 := name.toList.map (fun c => if c = '_' || c = '.' || c = '-' then ' ' else c)
  let w1 := subAll removeTokenAt work0
  let w2 := subAll (fun _ s => (seAt s).map (fun r => r.1)) w1
  let w3 := subAll (fun prev s => (altSeAt prev s).map (fun r => r.1)) w2
  let w4 := subAll (fun prev s => (yearAt prev s).map (fun r => r.1)) w3
  let w5 := subAll nofmAt w4
  let collapsed := collapseSpaces w5
  if collapsed.isEmpty then name else String.mk collapsed

/-- `_ARTICLES`, in source order (each with its trailing space). -/
def articles : List String :=
  ["the ", "a ", "an ", "der ", "die ", "das ", "le ", "la ", "los ", "las ", "el "]

/-- `make_sort_title`: lowercase, strip the first
matching leading article, fall back to the lowercase title when stripping
empties it. -/
def make_sort_title (title : String) : String :=
  let lower := String.mk (title.toList.map lowerA)
  match articles.find? (fun a => a.toList.isPrefixOf lower.toList) with
  | some a =>
    let stripped := pyStrip (String.mk (lower.toList.drop a.length))
    if stripped.isEmpty then lower else stripped
  | none => lower

/-! ### MediaItem builder (parser.py `parse_media_entry`) -/

/-- A raw upstream record: the `files` entries of the Webshare search
response are string-valued maps; a missing key reads as absent. -/
structure RawRecord where
  ident : Option String := none
  name : Option String := none
  type : Option String := none
  size : Option String := none
  img : Option String := none
  stripe : Option String := none
  stripe_count : Option String := none
  positive_votes : Option String := none
  negative_votes : Option String := none
  password : Option String := none
deriving DecidableEq, Repr

/-- `parse_media_entry`: build a `MediaItem` from a raw
record, defaulting every absent field (`data.get(...)`).  Classification
never fails; missing `ident`/`name` default to the empty string. -/
def parse_media_entry (data : RawRecord) : MediaItem :=
  let name := pyStrip (data.name.getD "")
  let ident := pyStrip (data.ident.getD "")
  let se := detect_season_episode name
  let q := detect_quality name
  let tokens := tokenize name
  let combined := String.intercalate " " tokens
  let cleaned := clean_title name
  { ident := ident
    original_name := name
    extension := truthyStr data.type
    size := pyIntOpt data.size
    preview_image := truthyStr data.img
    preview_strip := truthyStr data.stripe
    preview_count := pyIntOpt data.stripe_count
    votes_positive := pyIntOpt data.positive_votes
    votes_negative := pyIntOpt data.negative_votes
    password_protected := data.password.getD "0" = "1"
    media_type := classify_media_type name
    cleaned_title := cleaned
    sort_title := make_sort_title cleaned
    guessed_year := detect_year name
    season := se.1
    episode := se.2
    quality := q.1
    quality_score := q.2
    audio_languages := detect_languages tokens combined audioSearches
    subtitle_languages := detect_languages tokens combined subtitleSearches
    metadata := [] }

/-! ### Metadata resolver (metadata.py) -/

/-- `TMDbMetadataProvider._normalise`: lowercase and
strip every character outside `[a-z0-9]`. -/
def normalise (s : String) : String :=
  String.mk ((s.toList.map lowerA).filter (fun c => ('a' ≤ c && c ≤ 'z') || c.isDigit))

/-- `TMDbMetadataProvider._candidate_score`:
title score (+80 exact, +50 substring either way, else 0), year
adjustment (+30 within one year, −20 otherwise, only when both years are
truthy), and +10 for a TV query with a known season. -/
def candidate_score (query : MediaItem) (title : String) (year : Option Int) : Int :=
  let cleaned_query := normalise query.cleaned_title
  let cleaned_title := normalise title
  let base : Int :=
    if cleaned_query = cleaned_title then 80
    else if seqContains cleaned_query.toList cleaned_title.toList ||
        seqContains cleaned_title.toList cleaned_query.toList then 50
    else 0
  let yr : Int :=
    match query.guessed_year, year with
    | some a, some b =>
      if a ≠ 0 ∧ b ≠ 0 then (if (a - b).natAbs ≤ 1 then 30 else -20) else 0
    | _, _ => 0
  let tv : Int := if query.media_type = "tvshow" ∧ query.season ≠ none then 10 else 0
  base + yr + tv

/-- A search result as far as scoring is concerned: the extracted title
field and release year (metadata.py `_search`, result iteration). -/
structure Cand where
  title : String
  year : Option Int
deriving DecidableEq, Repr

def candScore (query : MediaItem) (c : Cand) : Int :=
  candidate_score query c.title c.year

/-- The selection step of `_search`:
`scored.sort(key=score, reverse=True); return scored[0]`.  Python's sort
is stable, so `mergeSort` with the reflexive-total order
`score b ≤ score a` reproduces it exactly. -/
def select_candidate (query : MediaItem) (cands : List Cand) : Option Cand :=
  (cands.mergeSort (fun a b => decide (candScore query b ≤ candScore query a))).head?

/-- Modelled from the spec (claim wording, for the refinement theorem):
the maximum-score candidate with ties broken by provider result order. -/
def firstMaxBy (score : α → Int) : List α → Option α
  | [] => none
  | x :: xs =>
    match firstMaxBy score xs with
    | none => some x
    | some m => if score m > score x then some m else some x

/-- Cache key of `MetadataManager.enrich`:
`(media_type, cleaned_title.lower(), guessed_year, season)`. -/
abbrev CacheKey := String × String × Option Int × Option Int

def pyLowerStr (s : String) : String := String.mk (s.toList.map lowerA)

def cache_key (item : MediaItem) : CacheKey :=
  (item.media_type, pyLowerStr item.cleaned_title, item.guessed_year, item.season)

/-- `cache_key in self._cache` plus the read: `some v` when present
(Python `in` is true even when the stored value is `None`). -/
def clookup (c : List (CacheKey × Option MDict)) (k : CacheKey) : Option (Option MDict) :=
  match c with
  | [] => none
  | p :: t => if p.1 = k then some p.2 else clookup t k

/-- `self._cache[cache_key] = v`. -/
def cstore (c : List (CacheKey × Option MDict)) (k : CacheKey) (v : Option MDict) :
    List (CacheKey × Option MDict) :=
  match c with
  | [] => [(k, v)]
  | p :: t => if p.1 = k then (k, v) :: t else p :: cstore t k v

/-- Python truthiness of a provider result: `None` and the empty dict are
falsy. -/
def mdTruthy (md : Option MDict) : Bool :=
  match md with
  | some d => !d.isEmpty
  | none => false

/-- `MetadataManager` state: the provider list (each provider's `enrich`
entry point as a function — exceptions are caught at the boundary in the
source and modelled as a `none` result) and the process-lifetime cache. -/
structure MetaMgr where
  providers : List (MediaItem → Option MDict)
  cache : List (CacheKey × Option MDict)

/-- Result of one `MetadataManager.enrich` call: the returned value, the
(possibly metadata-merged) item, the updated manager state, and how many
providers were invoked. -/
structure EnrichOut where
  result : Option MDict
  item : MediaItem
  mgr : MetaMgr
  providerCalls : Nat

/-- The provider loop of `enrich` (metadata.py): call
each provider in order; on a truthy result merge it onto the item and
stop.  The loop variable `metadata` retains the last provider's (falsy)
result when no provider matches. -/
def run_providers (item : MediaItem) :
    List (MediaItem → Option MDict) → Option MDict × MediaItem × Nat
  | [] => (none, item, 0)
  | p :: rest =>
    let md := p item
    if mdTruthy md then (md, apply_metadata item (md.getD []), 1)
    else
      match rest with
      | [] => (md, item, 1)
      | _ :: _ =>
        let r := run_providers item rest
        (r.1, r.2.1, r.2.2 + 1)

/-- `MetadataManager.enrich` (metadata.py lines 862-880): check the cache
first (honouring cached misses without a provider call), else run the
provider loop and cache the decision, including an explicit miss. -/
def enrich (m : MetaMgr) (item : MediaItem) : EnrichOut :=
  match clookup m.cache (cache_key item) with
  | some cached =>
    { result := cached
      item := if mdTruthy cached then apply_metadata item (cached.getD []) else item
      mgr := m
      providerCalls := 0 }
  | none =>
    let r := run_providers item m.providers
    { result := r.1
      item := r.2.1
      mgr := { m with cache := cstore m.cache (cache_key item) r.1 }
      providerCalls := r.2.2 }

/-! ### Catalogue engine (catalogue.py `WebshareCatalogue`) -/

def strContains (needle hay : String) : Bool :=
  seqContains needle.toList hay.toList

/-- The `genre_keywords` table of `_passes_filters`, in source order. -/
def genre_keywords : List (String × List String) :=
  [("action", ["action", "fight", "battle", "war", "combat"]),
   ("comedy", ["comedy", "funny", "humor", "laugh"]),
   ("drama", ["drama", "story", "life"]),
   ("horror", ["horror", "scary", "fear", "terror", "zombie"]),
   ("thriller", ["thriller", "suspense", "mystery"]),
   ("romance", ["love", "romance", "romantic"]),
   ("science fiction", ["sci-fi", "science fiction", "space", "future"]),
   ("fantasy", ["fantasy", "magic", "wizard", "dragon"]),
   ("animation", ["animated", "cartoon", "anime"]),
   ("documentary", ["documentary", "docu", "real story"])]

/-- Keyword-based genre fallback of `_passes_filters`. -/
def keyword_genres (item : MediaItem) : List String :=
  let title_lower := pyLowerStr item.cleaned_title
  let filename_lower := pyLowerStr item.original_name
  genre_keywords.foldl
    (fun acc p =>
      if p.2.any (fun kw => strContains kw title_lower || strContains kw filename_lower)
      then acc ++ [p.1] else acc)
    []

/-- Genres read from `item.metadata.get("genres", [])`, keeping strings
and lowercasing them.  Iterating a string yields its characters in
Python; a non-iterable value would raise and is out of claim scope. -/
def metadata_genres (md : MDict) : List String :=
  match dget md "genres" with
  | some (MVal.ns l) => l.map pyLowerStr
  | some (MVal.s str) => str.toList.map (fun c => pyLowerStr (String.mk [c]))
  | _ => []

/-- Size rejection: below 100 MiB for a movie filter, 50 MiB for a tvshow
filter, only when the size is known. -/
def size_reject (item : MediaItem) (media_type : Option String) : Bool :=
  match media_type, item.size with
  | some "movie", some sz => decide (sz < 104857600)
  | some "tvshow", some sz => decide (sz < 52428800)
  | _, _ => false

/-- Short-cleaned-title rejection for the movie filter. -/
def title_reject (item : MediaItem) (media_type : Option String) : Bool :=
  media_type = some "movie" && decide ((pyStrip item.cleaned_title).length < 3)

/-- Kind mismatch rejection (`if media_type and item.media_type != media_type`). -/
def mt_reject (item : MediaItem) (media_type : Option String) : Bool :=
  match media_type with
  | none => false
  | some m => if m = "" then false else decide (item.media_type ≠ m)

/-- Letter filter rejection: `"0-9"` requires a digit-initial sort key,
any other string requires the sort key to start with it. -/
def letter_reject (item : MediaItem) (letter : Option String) : Bool :=
  match letter with
  | none => false
  | some l0 =>
    if l0 = "" then false
    else
      let l := pyLowerStr l0
      let sort := pyLowerStr item.sort_title
      if l = "0-9" then
        !(match sort.toList with
          | c :: _ => c.isDigit
          | [] => false)
      else !(l.toList.isPrefixOf sort.toList)

/-- Quality filter rejection: exact match, except an `hd` request also
accepts `uhd`. -/
def quality_reject (item : MediaItem) (quality : Option String) : Bool :=
  match quality with
  | none => false
  | some q =>
    if q = "" || q = "any" then false
    else if item.quality = some q then false
    else !(q = "hd" && item.quality = some "uhd")

def audio_reject (item : MediaItem) (audio : Option String) : Bool :=
  match audio with
  | none => false
  | some a =>
    if a = "" || a = "any" then false else !(item.audio_languages.contains a)

def subtitles_reject (item : MediaItem) (subtitles : Option String) : Bool :=
  match subtitles with
  | none => false
  | some a =>
    if a = "" || a = "any" then false else !(item.subtitle_languages.contains a)

/-- Genre filter rejection: metadata genres when present, else the
keyword fallback. -/
def genre_reject (item : MediaItem) (genre : Option String) : Bool :=
  match genre with
  | none => false
  | some g =>
    if g = "" || g = "any" then false
    else
      let metaG := if item.metadata.isEmpty then [] else metadata_genres item.metadata
      let genres := if metaG.isEmpty then keyword_genres item else metaG
      !(genres.contains (pyLowerStr g))

/-- `WebshareCatalogue._passes_filters` (catalogue.py lines 22-104): the
sequential early-return chain, written as the equivalent conjunction of
its (total) rejection tests. -/
def passes_filters (item : MediaItem)
    (media_type letter quality audio subtitles genre : Option String) : Bool :=
  !(decide (item.media_type = "other")) &&
  !(size_reject item media_type) &&
  !(title_reject item media_type) &&
  !(mt_reject item media_type) &&
  !(letter_reject item letter) &&
  !(quality_reject item quality) &&
  !(audio_reject item audio) &&
  !(subtitles_reject item subtitles) &&
  !(genre_reject item genre)

/-- The upstream search endpoint as consumed by `fetch`: the query,
category and sort arguments are fixed by the caller, leaving a function
of the chunk size and raw offset returning `(total, files)`
(`WebshareAPI.search` returns a parsed integer total, never `None`). -/
abbrev Upstream := Nat → Nat → Nat × List RawRecord

/-- Parse one payload and (when a metadata manager is configured) enrich
the resulting item, threading the manager state. -/
def parse_enrich (meta : Option MetaMgr) (payload : RawRecord) :
    MediaItem × Option MetaMgr :=
  let item := parse_media_entry payload
  match meta with
  | none => (item, none)
  | some m =>
    let r := enrich m item
    (r.item, some r.mgr)

/-- The inner `for payload in files` loop of `fetch`: parse, enrich,
filter, accumulate; stop once the page target is reached. -/
def scan_chunk (mt letter quality audio subtitles genre : Option String) (limit : Nat) :
    List RawRecord → List MediaItem → Option MetaMgr → List MediaItem × Option MetaMgr
  | [], g, ms => (g, ms)
  | payload :: rest, g, ms =>
    let pe := parse_enrich ms payload
    if passes_filters pe.1 mt letter quality audio subtitles genre then
      let g' := g ++ [pe.1]
      if g'.length ≥ limit then (g', pe.2)
      else scan_chunk mt letter quality audio subtitles genre limit rest g' pe.2
    else scan_chunk mt letter quality audio subtitles genre limit rest g pe.2

/-- The `while len(gathered) < limit` over-fetch loop of `fetch`
(catalogue.py lines 124-145).  The Python loop can run unboundedly for an
adversarial upstream, so the embedding takes explicit fuel (one unit per
iteration); `none` means the fuel ran out before the loop finished. -/
def fetch_loop (up : Upstream) (mt letter quality audio subtitles genre : Option String)
    (limit fetchSize : Nat) :
    Nat → Nat → Option Nat → List MediaItem → Option MetaMgr →
    Option (List MediaItem × Nat × Option Nat × Option MetaMgr)
  | 0, _, _, _, _ => none
  | fuel + 1, offset, totalOpt, gathered, ms =>
    if gathered.length < limit then
      let tr := up fetchSize offset
      if tr.2.isEmpty then some (gathered, offset, some tr.1, ms)
      else
        let sc := scan_chunk mt letter quality audio subtitles genre limit tr.2 gathered ms
        let offset' := offset + tr.2.length
        if tr.1 ≤ offset' then some (sc.1, offset', some tr.1, sc.2)
        else
          fetch_loop up mt letter quality audio subtitles genre limit fetchSize
            fuel offset' (some tr.1) sc.1 sc.2
    else some (gathered, offset, totalOpt, ms)

/-- `fetch_loop` instrumented with the lengths of the non-empty chunks it
walked past (the `offset += len(files)` increments). -/
def fetch_loop_trace (up : Upstream)
    (mt letter quality audio subtitles genre : Option String)
    (limit fetchSize : Nat) :
    Nat → Nat → Option Nat → List MediaItem → Option MetaMgr →
    Option (List MediaItem × Nat × Option Nat × Option MetaMgr × List Nat)
  | 0, _, _, _, _ => none
  | fuel + 1, offset, totalOpt, gathered, ms =>
    if gathered.length < limit then
      let tr := up fetchSize offset
      if tr.2.isEmpty then some (gathered, offset, some tr.1, ms, [])
      else
        let sc := scan_chunk mt letter quality audio subtitles genre limit tr.2 gathered ms
        let offset' := offset + tr.2.length
        if tr.1 ≤ offset' then some (sc.1, offset', some tr.1, sc.2, [tr.2.length])
        else
          match fetch_loop_trace up mt letter quality audio subtitles genre limit fetchSize
              fuel offset' (some tr.1) sc.1 sc.2 with
          | none => none
          | some r => some (r.1, r.2.1, r.2.2.1, r.2.2.2.1, tr.2.length :: r.2.2.2.2)
    else some (gathered, offset, totalOpt, ms, [])

/-- The result quadruple of `WebshareCatalogue.fetch`. -/
structure FetchResult where
  items : List MediaItem
  nextOffset : Nat
  total : Nat
  hasMore : Bool
deriving DecidableEq, Repr

/-- `WebshareCatalogue.fetch` (catalogue.py lines 106-147):
`limit = page_size or settings.page_size` (so a zero `page_size` is
falsy and falls back to the default), `offset = max(0, start_offset)`,
`fetch_size = max(default, limit)`, then the over-fetch loop;
`has_more = bool(total and offset < total)` and the returned total
defaults to `0` when the loop never ran. -/
def fetch (up : Upstream) (meta : Option MetaMgr) (defaultPageSize : Nat)
    (media_type letter quality audio subtitles genre : Option String)
    (start_offset : Int) (page_size : Option Nat) (fuel : Nat) : Option FetchResult :=
  let limit := match page_size with
    | none => defaultPageSize
    | some n => if n = 0 then defaultPageSize else n
  let offset0 := (max 0 start_offset).toNat
  let fetchSize := max defaultPageSize limit
  match fetch_loop up media_type letter quality audio subtitles genre limit fetchSize
      fuel offset0 none [] meta with
  | none => none
  | some r =>
    let totalOpt := r.2.2.1
    some
      { items := r.1
        nextOffset := r.2.1
        total := totalOpt.getD 0
        hasMore :=
          match totalOpt with
          | none => false
          | some t => if t = 0 then false else decide (r.2.1 < t) }

/-- A deterministic list-backed upstream: the whole corpus as one list,
`search(limit, offset)` returning the slice at `offset` of size `limit`
and the corpus size as `total`. -/
def db_upstream (db : List RawRecord) : Upstream :=
  fun lim off => (db.length, (db.drop off).take lim)

/-! ### Concrete witnesses and demonstration data -/

def mkRec (n : String) : RawRecord := { name := some n }

/-- An empty upstream record (every field absent, as for a malformed
`file` node). -/
def emptyRec : RawRecord := {}

def alphaRec : RawRecord := mkRec "Alpha.Movie.2020.1080p.mkv"
def gammaRec : RawRecord := mkRec "Gamma.Movie.2021.mkv"
def epsilonRec : RawRecord := mkRec "Epsilon.2019.mkv"

def alphaItem : MediaItem := parse_media_entry alphaRec
def gammaItem : MediaItem := parse_media_entry gammaRec
def epsilonItem : MediaItem := parse_media_entry epsilonRec

/-- One-record corpus. -/
def db1 : List RawRecord := [alphaRec]

/-- Three-record corpus for the pagination-skipping demonstration. -/
def db3 : List RawRecord := [alphaRec, gammaRec, epsilonRec]

/-- An item with a pre-populated metadata map (for the merge claims). -/
def titledItem : MediaItem :=
  { ident := "i1", original_name := "Sample.mkv", extension := none, size := none,
    preview_image := none, preview_strip := none, preview_count := none,
    votes_positive := none, votes_negative := none, password_protected := false,
    media_type := "movie", cleaned_title := "Sample", sort_title := "sample",
    metadata := [("title", MVal.s "old"), ("plot", MVal.s "keep")] }

/-- The spec's worked scoring example: query title "Matrix", year 1999. -/
def matrixQuery : MediaItem :=
  { ident := "m1", original_name := "Matrix.1999.mkv", extension := none, size := none,
    preview_image := none, preview_strip := none, preview_count := none,
    votes_positive := none, votes_negative := none, password_protected := false,
    media_type := "movie", cleaned_title := "Matrix", sort_title := "matrix",
    guessed_year := some 1999 }

/-- A manager whose cache already records a miss for `alphaItem`. -/
def missMgr : MetaMgr :=
  { providers := [], cache := [(cache_key alphaItem, none)] }

/-- A UHD-quality item for the quality-filter witness. -/
def uhdItem : MediaItem := parse_media_entry (mkRec "Movie.2160p.mkv")

/-- Modelled from the spec (claim C6 wording): score +80 for exact
normalized-title equality, +50 for one being a substring of the other,
else 0; +30 if both years are known and differ by at most one, −20 if
both are known and differ by more; +10 for a TV query with a known
season.  Stated independently of `candidate_score` for the refinement
theorem. -/
def score_spec (query : MediaItem) (title : String) (year : Option Int) : Int :=
  (if normalise query.cleaned_title = normalise title then (80 : Int)
   else if seqContains (normalise query.cleaned_title).toList (normalise title).toList ||
       seqContains (normalise title).toList (normalise query.cleaned_title).toList then 50
   else 0) +
  (match query.guessed_year, year with
   | some a, some b =>
     if a ≠ 0 ∧ b ≠ 0 then (if (a - b).natAbs ≤ 1 then (30 : Int) else -20) else 0
   | _, _ => 0) +
  (if query.media_type = "tvshow" ∧ query.season ≠ none then (10 : Int) else 0)

/-! ### Library lemmas about the dictionary model -/

theorem dget_nil (k : String) : dget [] k = none := rfl

theorem dget_append (d₁ d₂ : MDict) (k : String) :
    dget (d₁ ++ d₂) k =
      match dget d₁ k with
      | some v => some v
      | none => dget d₂ k := by
  induction d₁ with
  | nil => rfl
  | cons p t ih =>
    by_cases hp : p.1 = k
    · simp [dget, hp]
    · simpa [dget, hp] using ih

theorem dget_dset_self (d : MDict) (k : String) (v : MVal) :
    dget (dset d k v) k = some v := by
  induction d with
  | nil => simp [dset, dget]
  | cons p t ih =>
    by_cases hp : p.1 = k
    · simp [dset, dget, hp]
    · simpa [dset, dget, hp] using ih

theorem dget_dset_ne (d : MDict) (k k' : String) (v : MVal) (hne : k' ≠ k) :
    dget (dset d k v) k' = dget d k' := by
  have hkk : ¬ k = k' := fun h => hne h.symm
  induction d with
  | nil => simp [dset, dget, hkk]
  | cons p t ih =>
    by_cases hp : p.1 = k
    · rw [dset, if_pos hp, dget, dget]
      rw [if_neg hkk, if_neg (show ¬ p.1 = k' from fun h => hkk (hp.symm.trans h))]
    · rw [dset, if_neg hp, dget, dget]
      by_cases hp' : p.1 = k'
      · rw [if_pos hp', if_pos hp']
      · rw [if_neg hp', if_neg hp']
        exact ih

theorem lookupLast_foldl (k : String) (rest : MDict) (init : Option MVal) :
    rest.foldl (fun acc p => if p.1 = k then some p.2 else acc) init =
      match lookupLast rest k with
      | some v => some v
      | none => init := by
  induction rest generalizing init with
  | nil => simp [lookupLast]
  | cons q t ih =>
    rw [List.foldl_cons, ih]
    have h2 : lookupLast (q :: t) k =
        match lookupLast t k with
        | some v => some v
        | none => if q.1 = k then some q.2 else none := by
      rw [show lookupLast (q :: t) k =
            List.foldl (fun acc p => if p.1 = k then some p.2 else acc)
              (if q.1 = k then some q.2 else none) t from rfl, ih]
    rw [h2]
    cases lookupLast t k <;> by_cases hq : q.1 = k <;> simp [hq]

theorem dget_dupdate (d data : MDict) (k : String) :
    dget (dupdate d data) k =
      match lookupLast data k with
      | some v => some v
      | none => dget d k := by
  induction data generalizing d with
  | nil => simp [dupdate, lookupLast]
  | cons p rest ih =>
    simp only [dupdate, List.foldl_cons]
    rw [show rest.foldl (fun acc q => dset acc q.1 q.2) (dset d p.1 p.2) =
        dupdate (dset d p.1 p.2) rest from rfl]
    rw [ih]
    have hlast : lookupLast (p :: rest) k =
        match lookupLast rest k with
        | some v => some v
        | none => if p.1 = k then some p.2 else none := by
      unfold lookupLast
      rw [List.foldl_cons]
      exact lookupLast_foldl k rest _
    rw [hlast]
    cases lookupLast rest k with
    | some v => rfl
    | none =>
      by_cases hp : p.1 = k
      · simp only [if_pos hp]
        rw [← hp, dget_dset_self]
      · simp only [if_neg hp]
        exact dget_dset_ne d p.1 k p.2 (fun h => hp h.symm)

theorem dget_dsetdefault_ne (d : MDict) (k k' : String) (v : MVal) (hne : k' ≠ k) :
    dget (dsetdefault d k v) k' = dget d k' := by
  have hkk : ¬ k = k' := fun h => hne h.symm
  unfold dsetdefault
  split
  · rfl
  · rw [dget_append]
    cases hfind : dget d k' with
    | some w => rfl
    | none => simp [dget, hkk]

theorem dget_dsetdefault_self (d : MDict) (k : String) (v : MVal) :
    dget (dsetdefault d k v) k =
      match dget d k with
      | some w => some w
      | none => some v := by
  unfold dsetdefault
  cases hfind : dget d k with
  | some w => simp [hfind]
  | none =>
    simp only [hfind, Option.isSome_none, Bool.false_eq_true, if_false]
    rw [dget_append, hfind]
    simp [dget]

/-! ### Claim C1 — metadata merge semantics -/

/-- C1 counterexample: `apply_metadata` does overwrite a key that is
already present in `item.metadata`.  `titledItem.metadata` maps `"title"`
to `"old"`; after merging a map that also binds `"title"`, the stored
value has changed — against the claim's "the value at k is unchanged". -/
theorem C1_counterexample :
    dget titledItem.metadata "title" = some (MVal.s "old") ∧
    dget (apply_metadata titledItem [("title", MVal.s "new")]).metadata "title" =
      some (MVal.s "new") := by
  exact ⟨rfl, rfl⟩

/-- C1 (amended): `apply_metadata` merges with dict-update semantics — a
key bound in `data` takes `data`'s (last) value, overwriting any existing
entry; keys of `item.metadata` not bound in `data` are unchanged; and
`title`/`year` are defaulted to `cleaned_title`/`guessed_year` only when
absent after the update.  A falsy (empty) `data` leaves the item
untouched. -/
theorem C1_apply_metadata_spec (item : MediaItem) (data : MDict) (k : String) :
    dget (apply_metadata item data).metadata k =
      if data.isEmpty then dget item.metadata k
      else
        let merged :=
          match lookupLast data k with
          | some v => some v
          | none => dget item.metadata k
        if k = "title" then
          match merged with
          | some v => some v
          | none => some (MVal.s item.cleaned_title)
        else if k = "year" then
          match merged with
          | some v => some v
          | none => some (yearDefault item.guessed_year)
        else merged := by
  by_cases hd : data.isEmpty
  · simp [apply_metadata, hd]
  · simp only [apply_metadata, hd, if_false, Bool.false_eq_true]
    by_cases ht : k = "title"
    · subst ht
      rw [dget_dsetdefault_ne _ "year" "title" _ (by decide)]
      rw [dget_dsetdefault_self, dget_dupdate]
      simp only [if_pos rfl]
      cases lookupLast data "title" with
      | some v => rfl
      | none => cases dget item.metadata "title" <;> rfl
    · by_cases hy : k = "year"
      · subst hy
        rw [dget_dsetdefault_self, dget_dsetdefault_ne _ "title" "year" _ (by decide)]
        rw [dget_dupdate]
        simp only [if_neg ht, if_pos rfl]
        cases lookupLast data "year" with
        | some v => rfl
        | none => cases dget item.metadata "year" <;> rfl
      · rw [dget_dsetdefault_ne _ "year" k _ hy, dget_dsetdefault_ne _ "title" k _ ht]
        rw [dget_dupdate]
        simp only [if_neg ht, if_neg hy]

/-! ### Claim C8 — cleaned title emptiness -/

/-- C8 counterexample: a raw record whose name is the empty string yields
an empty `cleaned_title` — the fallback falls back to the raw name, which
is itself empty, so `cleaned_title` can equal the empty string. -/
theorem C8_counterexample :
    (parse_media_entry { name := some "" }).cleaned_title = "" := by
  exact rfl

/-- The fallback structure of `clean_title`: the result is empty exactly
when the input name is empty. -/
theorem clean_title_empty_iff (name : String) :
    clean_title name = "" ↔ name = "" := by
  constructor
  · intro h
    simp only [clean_title] at h
    split at h
    · exact h
    · rename_i hcol
      exfalso
      have hdata : _ = ("" : String).data := congrArg String.data h
      cases hlist : (collapseSpaces (subAll nofmAt
          (subAll (fun prev s => (yearAt prev s).map (fun r => r.1))
            (subAll (fun prev s => (altSeAt prev s).map (fun r => r.1))
              (subAll (fun _ s => (seAt s).map (fun r => r.1))
                (subAll removeTokenAt
                  (name.toList.map
                    (fun c => if c = '_' || c = '.' || c = '-' then ' ' else c)))))))) with
      | nil => rw [hlist] at hcol; exact hcol rfl
      | cons c cs => rw [hlist] at hdata; exact List.noConfusion hdata
  · intro h
    subst h
    rfl

/-- C8 (amended): `cleaned_title` is the empty string exactly when the
record's (stripped) raw name is empty; in particular it is non-empty for
every record with a non-empty stripped name, but a missing or
whitespace-only name does produce an empty `cleaned_title`. -/
theorem C8_cleaned_title_empty_iff (data : RawRecord) :
    ((parse_media_entry data).cleaned_title = "" ↔ pyStrip (data.name.getD "") = "") := by
  have hproj : (parse_media_entry data).cleaned_title
      = clean_title (pyStrip (data.name.getD "")) := by
    simp only [parse_media_entry]
  rw [hproj]
  exact clean_title_empty_iff _

/-! ### Claim C3 — a zero page size -/

/-- C3 counterexample: with `page_size = 0` the fetch does not return
immediately with an empty item list — `page_size or settings.page_size`
treats `0` as unset, so the call runs a full default-sized page and here
returns one item. -/
theorem C3_counterexample :
    (fetch (db_upstream db1) none 20 none none none none none none 0 (some 0) 3).map
        (fun r => r.items.length) = some 1 := by
  exact rfl

/-- C3 (amended): a caller-requested `page_size` of zero is falsy and
falls back to the configured default page size — the call behaves exactly
as if no page size had been requested (no zero-sized probe happens). -/
theorem C3_page_size_zero (up : Upstream) (meta : Option MetaMgr) (d : Nat)
    (mt letter quality audio subtitles genre : Option String)
    (so : Int) (fuel : Nat) :
    fetch up meta d mt letter quality audio subtitles genre so (some 0) fuel =
      fetch up meta d mt letter quality audio subtitles genre so none fuel := by
  exact rfl

/-! ### Claim C2 — records missing required fields -/

/-- C2 counterexample: a raw record missing both `ident` and `name` is
not dropped by the fetch pipeline — with no filters requested it is
parsed (with empty-string defaults) and returned, against the claim that
it "never appears in the list of items returned by fetch". -/
theorem C2_counterexample :
    (fetch (db_upstream [emptyRec]) none 5 none none none none none none 0 none 5).map
        (fun r => r.items.map (fun i => (i.ident, i.original_name))) =
      some [("", "")] := by
  exact rfl

/-- C2 (amended): a raw record missing `ident` or `name` is not dropped:
`parse_media_entry` defaults the missing field to the empty string
(parsing is total, so no error is propagated), and such a record can
still appear in a fetch result — a movie-kind filter would reject it via
the short-title rule, but an unfiltered fetch returns it. -/
theorem C2_missing_required_fields :
    (∀ data : RawRecord, data.ident = none → (parse_media_entry data).ident = "") ∧
    (∀ data : RawRecord, data.name = none → (parse_media_entry data).original_name = "") ∧
    (∃ r, fetch (db_upstream [emptyRec]) none 5 none none none none none none 0 none 5 =
        some r ∧ r.items ≠ []) := by
  refine ⟨?_, ?_, ?_⟩
  · intro data h
    have hproj : (parse_media_entry data).ident = pyStrip (data.ident.getD "") := by
      simp only [parse_media_entry]
    rw [hproj, h]
    rfl
  · intro data h
    have hproj : (parse_media_entry data).original_name = pyStrip (data.name.getD "") := by
      simp only [parse_media_entry]
    rw [hproj, h]
    rfl
  · exact ⟨⟨[parse_media_entry emptyRec], 1, 1, false⟩, rfl, by simp⟩

/-- C2 witness: the amended theorem applied at the all-absent record. -/
theorem C2_missing_required_fields_witness :
    (parse_media_entry emptyRec).ident = "" ∧
    (parse_media_entry emptyRec).original_name = "" :=
  ⟨C2_missing_required_fields.1 emptyRec rfl,
   C2_missing_required_fields.2.1 emptyRec rfl⟩

/-! ### Loop invariants of the fetch engine -/

/-- Every item accumulated by the inner chunk scan either was already
gathered or passed the filter predicate. -/
theorem mem_scan_chunk (mt letter quality audio subtitles genre : Option String)
    (limit : Nat) (files : List RawRecord) (g : List MediaItem) (ms : Option MetaMgr)
    (item : MediaItem)
    (h : item ∈ (scan_chunk mt letter quality audio subtitles genre limit files g ms).1) :
    item ∈ g ∨ passes_filters item mt letter quality audio subtitles genre = true := by
  induction files generalizing g ms with
  | nil => exact Or.inl h
  | cons payload rest ih =>
    rw [scan_chunk] at h
    by_cases hp : passes_filters (parse_enrich ms payload).1 mt letter quality audio subtitles genre = true
    · rw [if_pos hp] at h
      by_cases hl : (g ++ [(parse_enrich ms payload).1]).length ≥ limit
      · rw [if_pos hl] at h
        rcases List.mem_append.mp h with hg | hone
        · exact Or.inl hg
        · rw [List.mem_singleton.mp hone]
          exact Or.inr hp
      · rw [if_neg hl] at h
        rcases ih _ _ h with hg | hpass
        · rcases List.mem_append.mp hg with hg' | hone
          · exact Or.inl hg'
          · rw [List.mem_singleton.mp hone]
            exact Or.inr hp
        · exact Or.inr hpass
    · rw [if_neg hp] at h
      exact ih _ _ h

/-- Every item produced by the over-fetch loop either was already
gathered or passed the filter predicate. -/
theorem mem_fetch_loop (up : Upstream)
    (mt letter quality audio subtitles genre : Option String) (limit fetchSize : Nat)
    (fuel offset : Nat) (totalOpt : Option Nat) (g : List MediaItem)
    (ms : Option MetaMgr) (out : List MediaItem × Nat × Option Nat × Option MetaMgr)
    (hout : fetch_loop up mt letter quality audio subtitles genre limit fetchSize
        fuel offset totalOpt g ms = some out)
    (item : MediaItem) (h : item ∈ out.1) :
    item ∈ g ∨ passes_filters item mt letter quality audio subtitles genre = true := by
  induction fuel generalizing offset totalOpt g ms out with
  | zero => exact absurd hout (by simp [fetch_loop])
  | succ fuel ih =>
    rw [fetch_loop] at hout
    by_cases hg : g.length < limit
    · rw [if_pos hg] at hout
      by_cases he : (up fetchSize offset).2.isEmpty
      · rw [if_pos he] at hout
        cases hout
        exact Or.inl h
      · rw [if_neg he] at hout
        by_cases hbrk : (up fetchSize offset).1 ≤ offset + (up fetchSize offset).2.length
        · rw [if_pos hbrk] at hout
          cases hout
          exact mem_scan_chunk _ _ _ _ _ _ _ _ _ _ _ h
        · rw [if_neg hbrk] at hout
          rcases ih _ _ _ _ _ hout h with hmem | hpass
          · exact mem_scan_chunk _ _ _ _ _ _ _ _ _ _ _ hmem
          · exact Or.inr hpass
    · rw [if_neg hg] at hout
      cases hout
      exact Or.inl h

/-! ### Claim C4 — no `other` items in fetch results -/

/-- C4: filter soundness — for every upstream, metadata configuration,
and combination of requested filters (including none), no item whose
`media_type` is `"other"` ever appears in a fetch result: the filter
predicate rejects such items unconditionally before any other test. -/
theorem C4_no_other_in_fetch (up : Upstream) (meta : Option MetaMgr) (d : Nat)
    (mt letter quality audio subtitles genre : Option String)
    (so : Int) (ps : Option Nat) (fuel : Nat) (r : FetchResult)
    (hr : fetch up meta d mt letter quality audio subtitles genre so ps fuel = some r)
    (item : MediaItem) (hmem : item ∈ r.items) :
    item.media_type ≠ "other" := by
  simp only [fetch] at hr
  split at hr
  · exact absurd hr (by simp)
  · rename_i out hout
    have heq := Option.some.inj hr
    subst heq
    rcases mem_fetch_loop _ _ _ _ _ _ _ _ _ _ _ _ _ _ _ hout item hmem with hg | hpass
    · exact absurd hg (List.not_mem_nil item)
    · intro hother
      rw [passes_filters] at hpass
      rw [hother] at hpass
      simp at hpass

/-- C4 witness: the theorem applied to a concrete one-record fetch whose
result page contains the parsed item. -/
theorem C4_no_other_in_fetch_witness : alphaItem.media_type ≠ "other" :=
  C4_no_other_in_fetch (db_upstream db1) none 20 none none none none none none 0 none 3
    ⟨[alphaItem], 1, 1, false⟩ rfl alphaItem (List.mem_singleton.mpr rfl)

/-! ### Claim C5 — pagination termination and the hasMore contract -/

/-- Fuel bound for the over-fetch loop: when the upstream's reported
total never exceeds `B`, the loop finishes within `1 + (B - offset)`
iterations — each non-final iteration advances the raw offset by at least
one and continues only while the offset is below the (≤ B) total. -/
theorem fetch_loop_ne_none (up : Upstream)
    (mt letter quality audio subtitles genre : Option String) (limit fetchSize : Nat)
    (B : Nat) (Hb : ∀ lim off, (up lim off).1 ≤ B) :
    ∀ fuel offset totalOpt g ms, 1 + (B - offset) ≤ fuel →
      fetch_loop up mt letter quality audio subtitles genre limit fetchSize
        fuel offset totalOpt g ms ≠ none := by
  intro fuel
  induction fuel with
  | zero => intro offset totalOpt g ms h; omega
  | succ fuel ih =>
    intro offset totalOpt g ms h
    rw [fetch_loop]
    by_cases hg : g.length < limit
    · rw [if_pos hg]
      by_cases he : (up fetchSize offset).2.isEmpty
      · rw [if_pos he]; exact Option.some_ne_none _
      · rw [if_neg he]
        by_cases hbrk : (up fetchSize offset).1 ≤ offset + (up fetchSize offset).2.length
        · rw [if_pos hbrk]; exact Option.some_ne_none _
        · rw [if_neg hbrk]
          apply ih
          have hlen : 1 ≤ (up fetchSize offset).2.length := by
            rcases hfl : (up fetchSize offset).2 with _ | ⟨x, xs⟩
            · rw [hfl] at he; exact absurd rfl he
            · simp
          have htot : (up fetchSize offset).1 ≤ B := Hb fetchSize offset
          omega
    · rw [if_neg hg]; exact Option.some_ne_none _

/-- The `has_more`/`total` relationship holding of every fetch result:
`has_more = bool(total and offset < total)` is false exactly when the
returned total (0 when the loop never ran) does not exceed the consumed
offset. -/
theorem fetch_hasMore_iff (up : Upstream) (meta : Option MetaMgr) (d : Nat)
    (mt letter quality audio subtitles genre : Option String)
    (so : Int) (ps : Option Nat) (fuel : Nat) (r : FetchResult)
    (hr : fetch up meta d mt letter quality audio subtitles genre so ps fuel = some r) :
    (r.hasMore = false ↔ r.total ≤ r.nextOffset) := by
  simp only [fetch] at hr
  split at hr
  · exact absurd hr (by simp)
  · rename_i out hout
    have heq := Option.some.inj hr
    subst heq
    rcases out with ⟨items, off, totalOpt, ms⟩
    cases totalOpt with
    | none => simp
    | some t =>
      by_cases ht : t = 0
      · subst ht; simp
      · simp only [ht, if_false]
        constructor
        · intro hfalse
          have : ¬ (off < t) := by simpa using hfalse
          simpa [Option.getD] using Nat.le_of_not_lt this
        · intro hle
          have : ¬ (off < t) := Nat.not_lt.mpr (by simpa [Option.getD] using hle)
          simp [this]

/-- C5: for every upstream whose reported totals are bounded by a finite
`B` (and which keeps returning non-empty file lists while records
remain — a hypothesis the proof does not even need), `fetch` terminates
within `B + 1` loop iterations, and the returned `hasMore` flag is false
exactly when the returned `nextOffset` has reached the returned total. -/
theorem C5_pagination_termination (up : Upstream) (B : Nat)
    (Hb : ∀ lim off, (up lim off).1 ≤ B)
    (Hne : ∀ lim off, 1 ≤ lim → off < (up lim off).1 → (up lim off).2 ≠ [])
    (meta : Option MetaMgr) (d : Nat)
    (mt letter quality audio subtitles genre : Option String)
    (so : Int) (ps : Option Nat) :
    ∃ r, fetch up meta d mt letter quality audio subtitles genre so ps (B + 1) = some r ∧
      (r.hasMore = false ↔ r.total ≤ r.nextOffset) := by
  have hne : fetch up meta d mt letter quality audio subtitles genre so ps (B + 1) ≠ none := by
    simp only [fetch]
    split
    · rename_i hout
      exact absurd hout
        (fetch_loop_ne_none up mt letter quality audio subtitles genre _ _ B Hb
          (B + 1) _ none [] meta (by omega))
    · exact Option.some_ne_none _
  rcases hr : fetch up meta d mt letter quality audio subtitles genre so ps (B + 1) with _ | r
  · exact absurd hr hne
  · exact ⟨r, rfl,
      fetch_hasMore_iff up meta d mt letter quality audio subtitles genre so ps (B + 1) r hr⟩

/-- C5 witness: the theorem applied to the concrete one-record corpus,
whose totals are bounded by 1 and whose chunks are non-empty while
records remain. -/
theorem C5_pagination_termination_witness :
    ∃ r, fetch (db_upstream db1) none 20 none none none none none none 0 none 2 = some r ∧
      (r.hasMore = false ↔ r.total ≤ r.nextOffset) :=
  C5_pagination_termination (db_upstream db1) 1
    (fun lim off => by simp [db_upstream, db1])
    (fun lim off hlim hoff => by
      have hoff0 : off = 0 := by
        simpa [db_upstream, db1] using hoff
      rcases lim with _ | l
      · omega
      · subst hoff0
        simp [db_upstream, db1])
    none 20 none none none none none none 0 none

/-! ### Claim C10 — nextOffset advances by whole chunks; the remainder is skipped -/

/-- C10: (i) the offset returned by the over-fetch loop is the starting
offset plus the sum of the full lengths of the chunks walked (as
recorded by the instrumented loop) — the inner accumulation stopping
partway through a chunk does not shorten the advance; and (ii) a
concrete demonstration: with a page size of one and a three-record
corpus, the passing record in the unexamined remainder of the first
chunk is returned neither by the first call nor by a second call
resuming from the returned `nextOffset`. -/
theorem C10_next_offset :
    (∀ (up : Upstream) (mt letter quality audio subtitles genre : Option String)
        (limit fetchSize fuel offset : Nat) (totalOpt : Option Nat)
        (g : List MediaItem) (ms : Option MetaMgr)
        (out : List MediaItem × Nat × Option Nat × Option MetaMgr),
        fetch_loop up mt letter quality audio subtitles genre limit fetchSize
            fuel offset totalOpt g ms = some out →
        ∃ lens : List Nat,
          fetch_loop_trace up mt letter quality audio subtitles genre limit fetchSize
              fuel offset totalOpt g ms =
            some (out.1, out.2.1, out.2.2.1, out.2.2.2, lens) ∧
          out.2.1 = offset + lens.sum) ∧
    (fetch (db_upstream db3) none 2 none none none none none none 0 (some 1) 5 =
        some ⟨[alphaItem], 2, 3, true⟩ ∧
      passes_filters gammaItem none none none none none none = true ∧
      fetch (db_upstream db3) none 2 none none none none none none 2 (some 1) 5 =
        some ⟨[epsilonItem], 3, 3, false⟩ ∧
      gammaItem ∉ [alphaItem] ∧ gammaItem ∉ [epsilonItem]) := by
  constructor
  · intro up mt letter quality audio subtitles genre limit fetchSize fuel
    induction fuel with
    | zero =>
      intro offset totalOpt g ms out hout
      exact absurd hout (by simp [fetch_loop])
    | succ fuel ih =>
      intro offset totalOpt g ms out hout
      rw [fetch_loop] at hout
      rw [fetch_loop_trace]
      by_cases hg : g.length < limit
      · rw [if_pos hg] at hout ⊢
        by_cases he : (up fetchSize offset).2.isEmpty
        · rw [if_pos he] at hout ⊢
          cases hout
          exact ⟨[], rfl, by simp⟩
        · rw [if_neg he] at hout ⊢
          by_cases hbrk : (up fetchSize offset).1 ≤ offset + (up fetchSize offset).2.length
          · rw [if_pos hbrk] at hout ⊢
            cases hout
            exact ⟨[(up fetchSize offset).2.length], rfl, by simp⟩
          · rw [if_neg hbrk] at hout ⊢
            rcases ih _ _ _ _ _ hout with ⟨lens, htrace, hsum⟩
            refine ⟨(up fetchSize offset).2.length :: lens, ?_, ?_⟩
            · rw [htrace]
            · simp only [List.sum_cons]
              omega
      · rw [if_neg hg] at hout ⊢
        cases hout
        exact ⟨[], rfl, by simp⟩
  · exact ⟨rfl, rfl, rfl, by decide, by decide⟩

/-- C10 witness: the offset law applied to a concrete loop run. -/
theorem C10_next_offset_witness :
    ∃ lens : List Nat,
      fetch_loop_trace (db_upstream db1) none none none none none none 20 20
          3 0 none [] none =
        some ([alphaItem], 1, some 1, none, lens) ∧ 1 = 0 + lens.sum :=
  C10_next_offset.1 (db_upstream db1) none none none none none none 20 20 3 0 none [] none
    ([alphaItem], 1, some 1, none) rfl

/-! ### Claim C7 — the enrichment cache -/

theorem clookup_cstore_self (c : List (CacheKey × Option MDict)) (k : CacheKey)
    (v : Option MDict) : clookup (cstore c k v) k = some v := by
  induction c with
  | nil => simp [cstore, clookup]
  | cons p t ih =>
    by_cases hp : p.1 = k
    · simp [cstore, clookup, hp]
    · simpa [cstore, clookup, hp] using ih

theorem clookup_cstore_ne (c : List (CacheKey × Option MDict)) (k k' : CacheKey)
    (v : Option MDict) (hne : k' ≠ k) : clookup (cstore c k v) k' = clookup c k' := by
  have hkk : ¬ k = k' := fun h => hne h.symm
  induction c with
  | nil => simp [cstore, clookup, hkk]
  | cons p t ih =>
    by_cases hp : p.1 = k
    · rw [cstore, if_pos hp, clookup, clookup]
      rw [if_neg hkk, if_neg (show ¬ p.1 = k' from fun h => hkk (hp.symm.trans h))]
    · rw [cstore, if_neg hp, clookup, clookup]
      by_cases hp' : p.1 = k'
      · rw [if_pos hp', if_pos hp']
      · rw [if_neg hp', if_neg hp']
        exact ih

/-- Cache-hit behavior of `enrich`, as a reusable lemma. -/
theorem enrich_hit (m : MetaMgr) (item : MediaItem) (c : Option MDict)
    (hc : clookup m.cache (cache_key item) = some c) :
    (enrich m item).result = c ∧ (enrich m item).mgr = m ∧
      (enrich m item).providerCalls = 0 := by
  simp [enrich, hc]

/-- C7: `enrich` caches its decision keyed by
`(media_type, cleaned_title.lower(), guessed_year, season)`, including
explicit misses.  (i) On a cache hit the cached value is returned, the
manager state is unchanged, and no provider is invoked.  (ii) On a first
lookup the decision — including a `None` miss — is stored under the key.
(iii) Existing cache entries are never changed by other calls, so the
cache persists for the life of the process.  (iv) Consequently, after a
first call for a key, every later call for an item with the same key
returns the first call's result with zero provider invocations. -/
theorem C7_enrich_cache (m : MetaMgr) (item : MediaItem) :
    (∀ c, clookup m.cache (cache_key item) = some c →
        (enrich m item).result = c ∧ (enrich m item).mgr = m ∧
          (enrich m item).providerCalls = 0) ∧
    (clookup m.cache (cache_key item) = none →
        clookup (enrich m item).mgr.cache (cache_key item) = some (enrich m item).result) ∧
    (∀ k v, clookup m.cache k = some v →
        clookup (enrich m item).mgr.cache k = some v) ∧
    (∀ item₂, cache_key item₂ = cache_key item →
        (enrich (enrich m item).mgr item₂).providerCalls = 0 ∧
          (enrich (enrich m item).mgr item₂).result = (enrich m item).result) := by
  refine ⟨?_, ?_, ?_, ?_⟩
  · intro c hc
    exact enrich_hit m item c hc
  · intro hc
    simp [enrich, hc, clookup_cstore_self]
  · intro k v hkv
    cases hc : clookup m.cache (cache_key item) with
    | some c => simp [enrich, hc, hkv]
    | none =>
      have hne : k ≠ cache_key item := by
        intro h
        rw [h, hc] at hkv
        exact Option.noConfusion hkv
      simp [enrich, hc, clookup_cstore_ne _ _ _ _ hne, hkv]
  · intro item₂ hkey
    cases hc : clookup m.cache (cache_key item) with
    | some c =>
      obtain ⟨hr1, hm1, _⟩ := enrich_hit m item c hc
      have h2 : clookup (enrich m item).mgr.cache (cache_key item₂) = some c := by
        rw [hm1, hkey, hc]
      obtain ⟨hr2, _, hp2⟩ := enrich_hit _ item₂ c h2
      exact ⟨hp2, by rw [hr2, hr1]⟩
    | none =>
      have h2 : clookup (enrich m item).mgr.cache (cache_key item₂) =
          some (enrich m item).result := by
        rw [hkey]
        simp [enrich, hc, clookup_cstore_self]
      obtain ⟨hr2, _, hp2⟩ := enrich_hit _ item₂ _ h2
      exact ⟨hp2, hr2⟩

/-- C7 witness: applied to a manager whose cache already records a miss
for `alphaItem` — the cached miss is honoured with zero provider calls. -/
theorem C7_enrich_cache_witness :
    (enrich missMgr alphaItem).providerCalls = 0 ∧
      (enrich missMgr alphaItem).result = none :=
  ⟨((C7_enrich_cache missMgr alphaItem).1 none rfl).2.2,
   ((C7_enrich_cache missMgr alphaItem).1 none rfl).1⟩

/-! ### Claim C9 — the quality filter -/

/-- Splitting a nine-test conjunction at its sixth test. -/
theorem bool_split9 : ∀ a b c d e x g h i : Bool,
    (a && b && c && d && e && x && g && h && i) =
      ((a && b && c && d && e && true && g && h && i) && x) := by
  decide

/-- `_passes_filters` factors into the quality-free tests and the quality
test (the quality argument influences no other test). -/
theorem passes_quality_split (item : MediaItem)
    (mt letter qopt audio subtitles genre : Option String) :
    passes_filters item mt letter qopt audio subtitles genre =
      (passes_filters item mt letter none audio subtitles genre &&
        !(quality_reject item qopt)) := by
  rw [passes_filters, passes_filters]
  rw [show quality_reject item none = false from rfl]
  rw [show (!false) = true from rfl]
  exact bool_split9 _ _ _ _ _ _ _ _ _

/-- The quality test alone, for a real tier request: it passes exactly
the matching tier, plus `uhd` items under an `hd` request. -/
theorem quality_reject_tier (item : MediaItem) (q : String)
    (hq : q = "sd" ∨ q = "hd" ∨ q = "uhd") :
    (quality_reject item (some q) = false ↔
      (item.quality = some q ∨ (q = "hd" ∧ item.quality = some "uhd"))) := by
  rcases hq with rfl | rfl | rfl
  · by_cases hiq : item.quality = some "sd" <;> simp [quality_reject, hiq]
  · by_cases hiq : item.quality = some "hd"
    · simp [quality_reject, hiq]
    · by_cases hiq2 : item.quality = some "uhd" <;> simp [quality_reject, hiq, hiq2]
  · by_cases hiq : item.quality = some "uhd" <;> simp [quality_reject, hiq]

/-- C9: for a requested tier `q ∈ {sd, hd, uhd}`, an item passing the
full filter chain with the quality filter set has exactly the requested
quality — except that an `hd` request also passes `uhd` items; an item
passing the other filters and matching that rule passes with the quality
filter set; and a `uhd` request never passes an item whose quality is
`hd` or lower. -/
theorem C9_quality_filter (item : MediaItem)
    (mt letter audio subtitles genre : Option String) (q : String)
    (hq : q = "sd" ∨ q = "hd" ∨ q = "uhd") :
    (passes_filters item mt letter (some q) audio subtitles genre = true →
        (item.quality = some q ∨ (q = "hd" ∧ item.quality = some "uhd"))) ∧
    (passes_filters item mt letter none audio subtitles genre = true →
        (item.quality = some q ∨ (q = "hd" ∧ item.quality = some "uhd")) →
        passes_filters item mt letter (some q) audio subtitles genre = true) ∧
    (passes_filters item mt letter (some "uhd") audio subtitles genre = true →
        item.quality = some "uhd") := by
  have main : ∀ q' : String, (q' = "sd" ∨ q' = "hd" ∨ q' = "uhd") →
      passes_filters item mt letter (some q') audio subtitles genre = true →
      (item.quality = some q' ∨ (q' = "hd" ∧ item.quality = some "uhd")) := by
    intro q' hq' hp
    rw [passes_quality_split] at hp
    have h2 : quality_reject item (some q') = false := by
      simpa using ((Bool.and_eq_true _ _).mp hp).2
    exact (quality_reject_tier item q' hq').mp h2
  refine ⟨main q hq, ?_, ?_⟩
  · intro hnone hdisj
    rw [passes_quality_split, hnone, Bool.true_and]
    simp [(quality_reject_tier item q hq).mpr hdisj]
  · intro hp
    rcases main "uhd" (Or.inr (Or.inr rfl)) hp with h | ⟨hcontra, _⟩
    · exact h
    · exact absurd hcontra (by decide)

/-- C9 witness: a `uhd` item passes an `hd`-quality request. -/
theorem C9_quality_filter_witness :
    passes_filters uhdItem none none (some "hd") none none none = true :=
  (C9_quality_filter uhdItem none none none none none "hd"
      (Or.inr (Or.inl rfl))).2.1 (by decide) (Or.inr ⟨rfl, by decide⟩)

/-! ### Claim C6 — candidate scoring and selection -/

theorem firstMaxBy_mem (score : α → Int) (xs : List α) (m : α)
    (h : firstMaxBy score xs = some m) : m ∈ xs := by
  induction xs generalizing m with
  | nil => exact absurd h (by simp [firstMaxBy])
  | cons x t ih =>
    rw [firstMaxBy] at h
    cases hf : firstMaxBy score t with
    | none =>
      rw [hf] at h
      cases h
      exact List.mem_cons_self x t
    | some m' =>
      rw [hf] at h
      dsimp only at h
      by_cases hgt : score m' > score x
      · rw [if_pos hgt] at h
        cases h
        exact List.mem_cons_of_mem x (ih _ hf)
      · rw [if_neg hgt] at h
        cases h
        exact List.mem_cons_self x t

/-- The head of the stable score-descending sort is the first candidate
attaining the maximal score.  This is the content of
`scored.sort(key=..., reverse=True); scored[0]`: Python's sort is stable,
so ties keep provider order. -/
theorem select_candidate_eq_firstMax (query : MediaItem) (cands : List Cand) :
    select_candidate query cands = firstMaxBy (candScore query) cands := by
  simp only [select_candidate]
  have htrans : ∀ a b c : Cand,
      (fun a b : Cand => decide (candScore query b ≤ candScore query a)) a b →
      (fun a b : Cand => decide (candScore query b ≤ candScore query a)) b c →
      (fun a b : Cand => decide (candScore query b ≤ candScore query a)) a c := by
    intro a b c hab hbc
    simp only [decide_eq_true_eq] at *
    omega
  have htotal : ∀ a b : Cand,
      ((fun a b : Cand => decide (candScore query b ≤ candScore query a)) a b ||
       (fun a b : Cand => decide (candScore query b ≤ candScore query a)) b a) := by
    intro a b
    simp only [Bool.or_eq_true, decide_eq_true_eq]
    omega
  induction cands with
  | nil => simp [firstMaxBy]
  | cons a l ih =>
    obtain ⟨l₁, l₂, h₁, h₂, h₃⟩ := List.mergeSort_cons htrans htotal a l
    rw [h₁, firstMaxBy]
    cases l₁ with
    | nil =>
      simp only [List.nil_append]
      cases hf : firstMaxBy (candScore query) l with
      | none => rfl
      | some m =>
        dsimp only
        have hmem : m ∈ l := firstMaxBy_mem _ _ _ hf
        have hmem2 : m ∈ l₂ := by
          have : m ∈ List.mergeSort l
              (fun a b : Cand => decide (candScore query b ≤ candScore query a)) :=
            List.mem_mergeSort.mpr hmem
          rw [h₂, List.nil_append] at this
          exact this
        have hsorted := List.sorted_mergeSort htrans htotal (a :: l)
        rw [h₁, List.nil_append] at hsorted
        have hle_am := (List.pairwise_cons.mp hsorted).1 m hmem2
        have hscore : candScore query m ≤ candScore query a := by
          simpa using hle_am
        rw [if_neg (by omega)]
        rfl
    | cons b t =>
      have hhead : (List.mergeSort l
          (fun a b : Cand => decide (candScore query b ≤ candScore query a))).head? =
            some b := by
        rw [h₂]
        rfl
      have hf : firstMaxBy (candScore query) l = some b := by
        rw [← ih]
        exact hhead
      rw [hf]
      dsimp only
      have hgt : candScore query b > candScore query a := by
        have hb := h₃ b (List.mem_cons_self b t)
        simp only [Bool.not_eq_true', decide_eq_false_iff_not, Int.not_le] at hb
        omega
      rw [if_pos hgt]
      rfl

/-- C6: the candidate score computed by the provider equals the claim's
formula (`score_spec`, stated from the spec's wording); the selected
candidate is the maximum-score candidate with ties broken by provider
result order (the first maximum); and the spec's worked example scores as
stated: "Matrix" (1999) versus "The Matrix" (1999) scores 80, versus
"Matrix Reloaded" (2003) scores 30. -/
theorem C6_candidate_scoring :
    (∀ (query : MediaItem) (title : String) (year : Option Int),
        candidate_score query title year = score_spec query title year) ∧
    (∀ (query : MediaItem) (cands : List Cand),
        select_candidate query cands = firstMaxBy (candScore query) cands) ∧
    candidate_score matrixQuery "The Matrix" (some 1999) = 80 ∧
    candidate_score matrixQuery "Matrix Reloaded" (some 2003) = 30 := by
  refine ⟨?_, select_candidate_eq_firstMax, by decide, by decide⟩
  intro query title year
  rfl

end TVstreamCZ
